import Mathlib

/-!
Shallow embedding of the worldbuild-arena web client's event-sourced state
layer: the contracts data model (`packages/contracts/src/types.ts`), the
canon derivation fold (`apps/web/src/state/canonDerive.ts`), the selectors
operating on the match store (`apps/web/src/state/selectors.ts`), the match
store's actions (`apps/web/src/state/matchStore.ts`), the derived match view
(`deriveMatchView`), the reconnecting SSE client (`apps/web/src/api/sse.ts`),
the `useMatchStream` message handler, and the judging score total
(`ScoringForm.tsx`).

JSON-patch application comes from the external `fast-json-patch` library, so
it is abstracted as an explicit function argument `ap : Canon → List
JsonPatchOp → Option Canon` (returning `none` when the library call throws);
all repository control flow around it is embedded faithfully.
-/

namespace WBA

/-! ## Contracts data model (`packages/contracts/src/types.ts`) -/

inductive TeamId where
  | A
  | B
deriving DecidableEq, Repr

inductive Role where
  | ARCHITECT
  | LOREKEEPER
  | CONTRARIAN
  | SYNTHESIZER
deriving DecidableEq, Repr

inductive TurnType where
  | PROPOSAL
  | OBJECTION
  | RESPONSE
  | RESOLUTION
  | VOTE
deriving DecidableEq, Repr

inductive VoteChoice where
  | ACCEPT
  | AMEND
  | REJECT
deriving DecidableEq, Repr

/-- JSON values, used for patch-op payloads (`unknown` in the source). -/
inductive Json where
  | null
  | bool (b : Bool)
  | num (q : ℚ)
  | str (s : String)
  | arr (xs : List Json)
  | obj (fields : List (String × Json))

/-- RFC-6902 subset, as in `types.ts` (`JsonPatchOp`). -/
inductive JsonPatchOp where
  | add (path : String) (value : Json)
  | remove (path : String)
  | replace (path : String) (value : Json)
  | move (from_ : String) (path : String)
  | copy (from_ : String) (path : String)
  | test (path : String) (value : Json)

structure CanonLandmark where
  name : String
  description : String
  significance : String
  visual_key : String
deriving Repr

structure CanonInhabitants where
  appearance : String
  culture_snapshot : String
  relationship_to_place : String
deriving Repr

structure CanonTension where
  conflict : String
  stakes : String
  visual_manifestation : String
deriving Repr

/-- `Canon` from `types.ts`; `landmarks` is the 3-tuple
`[CanonLandmark, CanonLandmark, CanonLandmark]`. -/
structure Canon where
  world_name : String
  governing_logic : String
  aesthetic_mood : String
  landmarks : CanonLandmark × CanonLandmark × CanonLandmark
  inhabitants : CanonInhabitants
  tension : CanonTension
  hero_image_description : String
deriving Repr

structure TurnVote where
  choice : VoteChoice
  amendment_summary : Option String
deriving Repr

structure TurnOutput where
  speaker_role : Role
  turn_type : TurnType
  content : String
  canon_patch : Option (List JsonPatchOp)
  references : Option (List String)
  vote : Option TurnVote

structure Challenge where
  seed : Int
  tier : Fin 3
  biome_setting : String
  inhabitants : String
  twist_constraint : String
deriving DecidableEq, Repr

structure Prompt where
  title : String
  prompt : String
  negative_prompt : Option String
  aspect_ratio : Option String
deriving DecidableEq, Repr

structure PromptPack where
  hero_image : Prompt
  landmark_triptych : Prompt × Prompt × Prompt
  inhabitant_portrait : Prompt
  tension_snapshot : Prompt
deriving DecidableEq, Repr

inductive VoteResultKind where
  | ACCEPT
  | AMEND
  | REJECT
  | DEADLOCK
deriving DecidableEq, Repr

/-- `Record<VoteChoice, number>` vote tally. -/
structure VoteTally where
  accept : Int
  amend : Int
  reject : Int
deriving DecidableEq, Repr

/-- The type-specific payload of a `MatchEvent` (the discriminated union's
tag and `data`/`team_id` fields from `types.ts`). -/
inductive EventBody where
  | match_created (seed : Int) (tier : Fin 3)
  | challenge_revealed (data : Challenge)
  | phase_started (phase : Int) (round_count : Int)
  | canon_initialized (team : TeamId) (canon : Canon) (canon_hash : String)
  | turn_emitted (team : TeamId) (phase : Int) (round : Int)
      (turn_id : String) (output : TurnOutput)
  | turn_validation_failed (team : TeamId) (phase : Int) (round : Int)
      (turn_id : String) (errors : List String)
  | vote_result (team : TeamId) (phase : Int) (round : Int)
      (result : VoteResultKind) (tally : VoteTally)
  | canon_patch_applied (team : TeamId) (phase : Int) (round : Int)
      (turn_id : String) (patch : List JsonPatchOp)
      (canon_before_hash : String) (canon_after_hash : String)
  | prompt_pack_generated (team : TeamId) (pack : PromptPack)
  | match_completed (canon_hash_a : String) (canon_hash_b : String)
  | match_failed (error : String)

/-- A `MatchEvent`: envelope fields plus the tagged body. -/
structure MatchEvent where
  id : String
  seq : Int
  ts : String
  match_id : String
  body : EventBody

namespace MatchEvent

/-- `team_id` of the event (`null` modelled as `none`). -/
def teamId : MatchEvent → Option TeamId
  | { body := .canon_initialized t .., .. } => some t
  | { body := .turn_emitted t .., .. } => some t
  | { body := .turn_validation_failed t .., .. } => some t
  | { body := .vote_result t .., .. } => some t
  | { body := .canon_patch_applied t .., .. } => some t
  | { body := .prompt_pack_generated t .., .. } => some t
  | _ => none

/-- Does `e.type === "canon_initialized" && e.team_id === teamId` hold? -/
def isInitFor (team : TeamId) (e : MatchEvent) : Bool :=
  match e.body with
  | .canon_initialized t _ _ => t = team
  | _ => false

/-- Does `e.type === "canon_patch_applied" && e.team_id === teamId` hold? -/
def isPatchFor (team : TeamId) (e : MatchEvent) : Bool :=
  match e.body with
  | .canon_patch_applied t .. => t = team
  | _ => false

/-- The canon carried by a `canon_initialized` event, if any. -/
def initCanon? (e : MatchEvent) : Option Canon :=
  match e.body with
  | .canon_initialized _ c _ => some c
  | _ => none

/-- The patch carried by a `canon_patch_applied` event for `team`, if any. -/
def patchFor? (team : TeamId) (e : MatchEvent) : Option (List JsonPatchOp) :=
  match e.body with
  | .canon_patch_applied t _ _ _ p _ _ => if t = team then some p else none
  | _ => none

end MatchEvent

/-! ## Canon derivation (`apps/web/src/state/canonDerive.ts`) -/

/-- The fold step of `deriveTeamCanon`'s loop: skip events that are not
`canon_patch_applied` for the team; otherwise apply the patch, keeping the
previous canon when the library call fails (the `try`/`catch`). -/
def patchStep (ap : Canon → List JsonPatchOp → Option Canon) (team : TeamId)
    (canon : Canon) (e : MatchEvent) : Canon :=
  match e.patchFor? team with
  | none => canon
  | some patch =>
    match ap canon patch with
    | none => canon
    | some c => c

/-- `deriveTeamCanon(events, teamId)`: find the first `canon_initialized`
event for the team (null when absent), then replay every
`canon_patch_applied` for the team over the whole list in order. -/
def deriveTeamCanon (ap : Canon → List JsonPatchOp → Option Canon)
    (events : List MatchEvent) (team : TeamId) : Option Canon :=
  match events.find? (MatchEvent.isInitFor team) with
  | none => none
  | some initEvent =>
    match initEvent.initCanon? with
    | none => none
    | some c0 => some (events.foldl (patchStep ap team) c0)

/-- `deriveTeamCanonBefore(events, teamId)`: with no team patches, the
initial canon (or null); otherwise replay after dropping the team's patch
events whose `seq` equals the last team patch's `seq`. -/
def deriveTeamCanonBefore (ap : Canon → List JsonPatchOp → Option Canon)
    (events : List MatchEvent) (team : TeamId) : Option Canon :=
  let patchEvents := events.filter (MatchEvent.isPatchFor team)
  match patchEvents.getLast? with
  | none =>
    match events.find? (MatchEvent.isInitFor team) with
    | none => none
    | some initEvent => initEvent.initCanon?
  | some lastPatch =>
    let eventsWithoutLastPatch := events.filter fun e =>
      !(e.isPatchFor team && e.seq == lastPatch.seq)
    deriveTeamCanon ap eventsWithoutLastPatch team

/-! ## Match store (`apps/web/src/state/matchStore.ts`) -/

inductive PlaybackSpeed where
  | half
  | one
  | two
  | four
deriving DecidableEq, Repr

inductive MatchStatus where
  | running
  | completed
  | failed
deriving DecidableEq, Repr

/-- `MatchDetail` from `apps/web/src/api/types.ts`. -/
structure MatchDetail where
  match_id : String
  status : MatchStatus
  seed : Int
  tier : Fin 3
  created_at : String
  completed_at : Option String
  challenge : Option Challenge
  canon_hash_a : Option String
  canon_hash_b : Option String
  error : Option String

/-- `MatchState` from `matchStore.ts` (the `Error` object is modelled by its
message string). -/
structure MatchState where
  matchId : Option String
  matchDetail : Option MatchDetail
  events : List MatchEvent
  currentIndex : Int
  isPlaying : Bool
  playbackSpeed : PlaybackSpeed
  isConnected : Bool
  isLive : Bool
  isLoading : Bool
  error : Option String

def initialState : MatchState where
  matchId := none
  matchDetail := none
  events := []
  currentIndex := -1
  isPlaying := false
  playbackSpeed := .one
  isConnected := false
  isLive := true
  isLoading := false
  error := none

/-- Stable insertion of an event into a seq-sorted list (helper for
`sortBySeq`). -/
def insertBySeq (e : MatchEvent) : List MatchEvent → List MatchEvent
  | [] => [e]
  | x :: xs => if x.seq < e.seq then x :: insertBySeq e xs else e :: x :: xs

/-- `arr.sort((a, b) => a.seq - b.seq)`: a stable ascending sort by `seq`,
modelled as stable insertion sort. -/
def sortBySeq (l : List MatchEvent) : List MatchEvent :=
  l.foldr insertBySeq []

namespace MatchState

/-- `appendEvent` action: dedupe by `seq`, else insert sorted and track the
live cursor. -/
def appendEvent (s : MatchState) (event : MatchEvent) : MatchState :=
  if s.events.any fun e => e.seq == event.seq then s
  else
    let newEvents := sortBySeq (s.events ++ [event])
    let newIndex : Int :=
      if s.isLive then (newEvents.length : Int) - 1 else s.currentIndex
    { s with
      events := newEvents
      currentIndex := newIndex
      isLive := decide (newIndex = (newEvents.length : Int) - 1) }

/-- `setEvents` action. -/
def setEvents (s : MatchState) (events : List MatchEvent) : MatchState :=
  let sorted := sortBySeq events
  { s with
    events := sorted
    currentIndex := (sorted.length : Int) - 1
    isLive := true }

/-- `seekTo` action: clamp the index to `[-1, events.length - 1]`. -/
def seekTo (s : MatchState) (index : Int) : MatchState :=
  let clampedIndex := max (-1) (min index ((s.events.length : Int) - 1))
  { s with
    currentIndex := clampedIndex
    isLive := decide (clampedIndex = (s.events.length : Int) - 1)
    isPlaying := false }

def stepForward (s : MatchState) : MatchState :=
  if s.currentIndex < (s.events.length : Int) - 1 then
    let newIndex := s.currentIndex + 1
    { s with
      currentIndex := newIndex
      isLive := decide (newIndex = (s.events.length : Int) - 1) }
  else s

def stepBackward (s : MatchState) : MatchState :=
  if s.currentIndex > 0 then
    { s with currentIndex := s.currentIndex - 1, isLive := false }
  else s

def play (s : MatchState) : MatchState := { s with isPlaying := true }

def pause (s : MatchState) : MatchState := { s with isPlaying := false }

def setSpeed (s : MatchState) (speed : PlaybackSpeed) : MatchState :=
  { s with playbackSpeed := speed }

def goLive (s : MatchState) : MatchState :=
  { s with
    currentIndex := (s.events.length : Int) - 1
    isLive := true
    isPlaying := false }

def setMatchId (s : MatchState) (matchId : String) : MatchState :=
  { s with matchId := some matchId }

def setMatchDetail (s : MatchState) (detail : MatchDetail) : MatchState :=
  { s with matchDetail := some detail }

def setLoading (s : MatchState) (loading : Bool) : MatchState :=
  { s with isLoading := loading }

def setError (s : MatchState) (err : Option String) : MatchState :=
  { s with error := err }

def setConnected (s : MatchState) (connected : Bool) : MatchState :=
  { s with isConnected := connected }

def reset (_ : MatchState) : MatchState := initialState

end MatchState

/-- The store's action alphabet (every action exposed by `useMatchStore`). -/
inductive MatchAction where
  | setMatchId (id : String)
  | setMatchDetail (d : MatchDetail)
  | setLoading (b : Bool)
  | setError (err : Option String)
  | appendEvent (e : MatchEvent)
  | setEvents (l : List MatchEvent)
  | seekTo (i : Int)
  | stepForward
  | stepBackward
  | play
  | pause
  | setSpeed (sp : PlaybackSpeed)
  | goLive
  | setConnected (b : Bool)
  | reset

/-- One store action applied to a state. -/
def storeStep (s : MatchState) : MatchAction → MatchState
  | .setMatchId id => s.setMatchId id
  | .setMatchDetail d => s.setMatchDetail d
  | .setLoading b => s.setLoading b
  | .setError err => s.setError err
  | .appendEvent e => s.appendEvent e
  | .setEvents l => s.setEvents l
  | .seekTo i => s.seekTo i
  | .stepForward => s.stepForward
  | .stepBackward => s.stepBackward
  | .play => s.play
  | .pause => s.pause
  | .setSpeed sp => s.setSpeed sp
  | .goLive => s.goLive
  | .setConnected b => s.setConnected b
  | .reset => s.reset

/-- Run a sequence of store actions from the initial state. -/
def runStore (acts : List MatchAction) : MatchState :=
  acts.foldl storeStep initialState

/-! ## Selectors (`apps/web/src/state/selectors.ts`) -/

/-- `l.slice(0, endIdx)` with JavaScript semantics: a negative end counts
from the end of the array. -/
def jsSliceTo (l : List MatchEvent) (endIdx : Int) : List MatchEvent :=
  let len : Int := l.length
  let e := if endIdx < 0 then max (len + endIdx) 0 else min endIdx len
  l.take e.toNat

/-- `selectVisibleEvents`: events up to the current playback index. -/
def selectVisibleEvents (s : MatchState) : List MatchEvent :=
  jsSliceTo s.events (s.currentIndex + 1)

inductive MatchEventStatus where
  | running
  | completed
  | failed
deriving DecidableEq, Repr

/-- The backward scan of `selectMatchStatus`, expressed on the reversed
list: return at the first terminal event found. -/
def statusScanBack : List MatchEvent → MatchEventStatus
  | [] => .running
  | e :: rest =>
    match e.body with
    | .match_completed .. => .completed
    | .match_failed .. => .failed
    | _ => statusScanBack rest

/-- `selectMatchStatus`: scan visible events from the most recent backwards
for a terminal event. -/
def selectMatchStatus (s : MatchState) : MatchEventStatus :=
  statusScanBack (selectVisibleEvents s).reverse

/-! ## Derived match view (`deriveMatchView` in the web client's state layer) -/

structure LastPatchInfo where
  phase : Int
  round : Int
  patch : List JsonPatchOp
  canonBeforeHash : String
  canonAfterHash : String

structure LastTurnInfo where
  phase : Int
  round : Int
  turnId : String
  output : TurnOutput

structure LastFailureInfo where
  phase : Int
  round : Int
  turnId : String
  errors : List String

structure LastVoteInfo where
  phase : Int
  round : Int
  result : VoteResultKind
  tally : VoteTally

/-- `TeamView`: all fields optional, starting empty (`{}`). -/
structure TeamView where
  canon : Option Canon := none
  canonHash : Option String := none
  lastPatch : Option LastPatchInfo := none
  lastTurn : Option LastTurnInfo := none
  lastFailure : Option LastFailureInfo := none
  lastVote : Option LastVoteInfo := none
  promptPack : Option PromptPack := none

/-- The `Record<TeamId, TeamView>` of `deriveMatchView`. -/
structure TeamsRec where
  A : TeamView
  B : TeamView

/-- `teams[teamId]`. -/
def TeamsRec.get (ts : TeamsRec) : TeamId → TeamView
  | .A => ts.A
  | .B => ts.B

/-- Update `teams[teamId]`. -/
def TeamsRec.set (ts : TeamsRec) : TeamId → TeamView → TeamsRec
  | .A, tv => { ts with A := tv }
  | .B, tv => { ts with B := tv }

/-- `{ A: {}, B: {} }`. -/
def TeamsRec.init : TeamsRec := ⟨{}, {}⟩

inductive ViewStatus where
  | idle
  | running
  | completed
  | failed
deriving DecidableEq, Repr

structure ActiveSpeakerInfo where
  teamId : TeamId
  role : Role
  turnType : TurnType

structure MatchView where
  status : ViewStatus
  matchId : Option String
  seed : Option Int
  tier : Option (Fin 3)
  phase : Option Int
  roundCount : Option Int
  challenge : Option Challenge
  teams : TeamsRec
  activeSpeaker : Option ActiveSpeakerInfo
  lastEvent : Option MatchEvent

/-- The mutable locals of `deriveMatchView`'s loop. -/
structure ViewAcc where
  status : ViewStatus
  seed : Option Int
  tier : Option (Fin 3)
  phase : Option Int
  roundCount : Option Int
  challenge : Option Challenge
  teams : TeamsRec
  activeSpeaker : Option ActiveSpeakerInfo

/-- One iteration of `deriveMatchView`'s `for` loop. `ap` stands for
`safeApplyPatch` (the `fast-json-patch` call with validation), returning
`none` when the library throws. -/
def viewStep (ap : Canon → List JsonPatchOp → Option Canon)
    (acc : ViewAcc) (event : MatchEvent) : ViewAcc :=
  match event.body with
  | .match_created seed tier => { acc with seed := some seed, tier := some tier }
  | .challenge_revealed data => { acc with challenge := some data }
  | .phase_started phase round_count =>
    { acc with phase := some phase, roundCount := some round_count }
  | .canon_initialized t canon canon_hash =>
    let tv := acc.teams.get t
    { acc with
      teams := acc.teams.set t
        { tv with canon := some canon, canonHash := some canon_hash } }
  | .turn_emitted t phase round turn_id output =>
    let tv := acc.teams.get t
    { acc with
      teams := acc.teams.set t
        { tv with lastTurn := some ⟨phase, round, turn_id, output⟩ }
      activeSpeaker := some ⟨t, output.speaker_role, output.turn_type⟩ }
  | .turn_validation_failed t phase round turn_id errors =>
    let tv := acc.teams.get t
    { acc with
      teams := acc.teams.set t
        { tv with lastFailure := some ⟨phase, round, turn_id, errors⟩ } }
  | .vote_result t phase round result tally =>
    let tv := acc.teams.get t
    { acc with
      teams := acc.teams.set t
        { tv with lastVote := some ⟨phase, round, result, tally⟩ } }
  | .canon_patch_applied t phase round _ patch before after =>
    let tv := acc.teams.get t
    let tv :=
      match tv.canon with
      | some c =>
        match ap c patch with
        | some c2 => { tv with canon := some c2, canonHash := some after }
        | none => tv
      | none => tv
    { acc with
      teams := acc.teams.set t
        { tv with lastPatch := some ⟨phase, round, patch, before, after⟩ } }
  | .prompt_pack_generated t pack =>
    let tv := acc.teams.get t
    { acc with teams := acc.teams.set t { tv with promptPack := some pack } }
  | .match_completed _ _ => { acc with status := .completed }
  | .match_failed _ => { acc with status := .failed }

/-- `events.slice(0, Math.max(0, Math.min(cursor, events.length)))`. -/
def mvSlice (events : List MatchEvent) (cursor : Int) : List MatchEvent :=
  events.take (max 0 (min cursor (events.length : Int))).toNat

/-- `deriveMatchView(events, cursor)`: fold the clamped slice of the event
log into a `MatchView`. -/
def deriveMatchView (ap : Canon → List JsonPatchOp → Option Canon)
    (events : List MatchEvent) (cursor : Int) : MatchView :=
  let slice := mvSlice events cursor
  let init : ViewAcc :=
    { status := if slice.isEmpty then .idle else .running
      seed := none
      tier := none
      phase := none
      roundCount := none
      challenge := none
      teams := TeamsRec.init
      activeSpeaker := none }
  let acc := slice.foldl (viewStep ap) init
  let status :=
    if acc.status = .idle && !slice.isEmpty then ViewStatus.running
    else acc.status
  { status := status
    matchId := slice.head?.map (·.match_id)
    seed := acc.seed
    tier := acc.tier
    phase := acc.phase
    roundCount := acc.roundCount
    challenge := acc.challenge
    teams := acc.teams
    activeSpeaker := acc.activeSpeaker
    lastEvent := slice.getLast? }

/-! ## Reconnecting SSE client (`apps/web/src/api/sse.ts`) -/

/-- The mutable locals of `createReconnectingEventSource` that the claims
are about: `retryCount`, `currentSeq`, and (for specification purposes) the
list of events delivered so far. -/
structure ReconnState where
  retryCount : Nat
  currentSeq : Int
  delivered : List MatchEvent

/-- Initial closure state of `createReconnectingEventSource(matchId,
initialSeq, ...)`. -/
def reconnInit (initialSeq : Int) : ReconnState :=
  { retryCount := 0, currentSeq := initialSeq, delivered := [] }

/-- Observable callback activations of the reconnecting client. -/
inductive SSEAction where
  | onEvent (e : MatchEvent)
  | onError

/-- The `onEvent` handler resets `retryCount` and records
`currentSeq = event.seq`; `onError` only bumps the retry counter (and
schedules a reconnect). -/
def reconnStep (s : ReconnState) : SSEAction → ReconnState
  | .onEvent e =>
    { retryCount := 0, currentSeq := e.seq, delivered := s.delivered ++ [e] }
  | .onError => { s with retryCount := s.retryCount + 1 }

def runReconn (initialSeq : Int) (acts : List SSEAction) : ReconnState :=
  acts.foldl reconnStep (reconnInit initialSeq)

/-- The `after` query parameter used when `connect()` opens a new
`EventSource` (`createMatchEventSource(matchId, currentSeq, ...)` builds
`?after=${currentSeq}`). -/
def connectAfterParam (s : ReconnState) : Int := s.currentSeq

/-! ## `useMatchStream` message handler (`useMatchStream.ts`) -/

/-- The hook's per-connection state: `lastSeqRef` and the accumulated
`events` array. -/
structure StreamState where
  lastSeq : Int
  events : List MatchEvent

/-- State right after `connect(matchId, afterSeq)`. -/
def streamInit (afterSeq : Int) : StreamState :=
  { lastSeq := afterSeq, events := [] }

/-- The `source.onmessage` handler for a validated event: skip when
`event.seq <= lastSeqRef.current`, else record the seq and append. -/
def streamOnMessage (s : StreamState) (e : MatchEvent) : StreamState :=
  if e.seq ≤ s.lastSeq then s
  else { lastSeq := e.seq, events := s.events ++ [e] }

def runStream (afterSeq : Int) (msgs : List MatchEvent) : StreamState :=
  msgs.foldl streamOnMessage (streamInit afterSeq)

/-! ## Judging score total (`ScoringForm.tsx`) -/

/-- The five score categories (`JudgingScores` keys). -/
inductive ScoreKey where
  | internal_coherence
  | creative_ambition
  | visual_fidelity
  | artifact_quality
  | process_quality
deriving DecidableEq, Repr

/-- `JudgingScores`: JavaScript numbers modelled as exact rationals. -/
structure JudgingScores where
  internal_coherence : ℚ
  creative_ambition : ℚ
  visual_fidelity : ℚ
  artifact_quality : ℚ
  process_quality : ℚ

/-- `scores[cat.key]`. -/
def JudgingScores.get (s : JudgingScores) : ScoreKey → ℚ
  | .internal_coherence => s.internal_coherence
  | .creative_ambition => s.creative_ambition
  | .visual_fidelity => s.visual_fidelity
  | .artifact_quality => s.artifact_quality
  | .process_quality => s.process_quality

/-- Apply one patch, keeping the document when application fails. -/
def applyOrKeep (ap : Canon → List JsonPatchOp → Option Canon)
    (c : Canon) (p : List JsonPatchOp) : Canon :=
  (ap c p).getD c

/-- Is the event a terminal event (`match_completed` or `match_failed`)? -/
def isTerminal (e : MatchEvent) : Bool :=
  match e.body with
  | .match_completed _ _ => true
  | .match_failed _ => true
  | _ => false

/-- The status named by the most recent terminal event of a list, `running`
when there is none. -/
def statusSpec (l : List MatchEvent) : MatchEventStatus :=
  match (l.filter isTerminal).getLast? with
  | none => .running
  | some e =>
    match e.body with
    | .match_failed _ => .failed
    | _ => .completed

/-- Inclusion of the read-model status names into the view status names. -/
def MatchEventStatus.toViewStatus : MatchEventStatus → ViewStatus
  | .running => .running
  | .completed => .completed
  | .failed => .failed

/-- Strictly increasing `seq` along a list of events. -/
def StrictBySeq (l : List MatchEvent) : Prop :=
  l.Pairwise fun a b => a.seq < b.seq

/-- Invariant of the match store claimed for all reachable states. -/
def StoreInv (s : MatchState) : Prop :=
  -1 ≤ s.currentIndex ∧ s.currentIndex ≤ (s.events.length : Int) - 1
    ∧ (s.isLive = true ↔ s.currentIndex = (s.events.length : Int) - 1)

def sampleLandmark : CanonLandmark :=
  { name := "spire", description := "a glass spire", significance := "old"
    visual_key := "spire_key" }

def sampleCanon : Canon :=
  { world_name := "w", governing_logic := "g", aesthetic_mood := "m"
    landmarks := (sampleLandmark, sampleLandmark, sampleLandmark)
    inhabitants := { appearance := "a", culture_snapshot := "c", relationship_to_place := "r" }
    tension := { conflict := "c", stakes := "s", visual_manifestation := "v" }
    hero_image_description := "h" }

def sampleInitA : MatchEvent :=
  { id := "e1", seq := 1, ts := "t1", match_id := "m"
    body := .canon_initialized .A sampleCanon "h0" }

/-- A team-A patch event sharing `seq = 1` with `sampleInitA`. -/
def samplePatchA : MatchEvent :=
  { id := "e2", seq := 1, ts := "t2", match_id := "m"
    body := .canon_patch_applied .A 1 1 "turn-1" [] "h0" "h1" }

/-- A team-A patch event with a fresh `seq`. -/
def samplePatchA2 : MatchEvent :=
  { id := "e3", seq := 2, ts := "t3", match_id := "m"
    body := .canon_patch_applied .A 1 1 "turn-2" [] "h0" "h1" }

/-- A patch-application function that always succeeds without change. -/
def apKeep : Canon → List JsonPatchOp → Option Canon := fun c _ => some c

theorem isInitFor_initCanon {team : TeamId} {e : MatchEvent}
    (h : e.isInitFor team = true) : ∃ c, e.initCanon? = some c := by
  rcases e with ⟨id, seq, ts, mid, body⟩
  cases body <;> simp_all [MatchEvent.isInitFor, MatchEvent.initCanon?]

theorem isPatchFor_false_patchFor {team : TeamId} {e : MatchEvent}
    (h : e.isPatchFor team = false) : e.patchFor? team = none := by
  rcases e with ⟨id, seq, ts, mid, body⟩
  cases body <;> simp_all [MatchEvent.isPatchFor, MatchEvent.patchFor?]

theorem foldl_patchStep_eq (ap : Canon → List JsonPatchOp → Option Canon)
    (team : TeamId) :
    ∀ (events : List MatchEvent) (c0 : Canon),
      events.foldl (patchStep ap team) c0
        = (events.filterMap (MatchEvent.patchFor? team)).foldl (applyOrKeep ap) c0 := by
  intro events
  induction events with
  | nil => intro c0; rfl
  | cons e es ih =>
    intro c0
    simp only [List.foldl_cons, List.filterMap_cons]
    cases h : e.patchFor? team with
    | none => simp only [patchStep, h, ih]
    | some p =>
      simp only [patchStep, h, ih, List.foldl_cons]
      cases hap : ap c0 p <;> simp [applyOrKeep, hap]

/-! ## Lemmas about the seq sort of `appendEvent`/`setEvents` -/

theorem insertBySeq_perm (e : MatchEvent) :
    ∀ l : List MatchEvent, List.Perm (insertBySeq e l) (e :: l) := by
  intro l
  induction l with
  | nil => exact List.Perm.refl _
  | cons x xs ih =>
    by_cases h : x.seq < e.seq
    · simpa [insertBySeq, h] using ((ih.cons x).trans (List.Perm.swap e x xs))
    · simp [insertBySeq, h]

theorem sortBySeq_perm : ∀ l : List MatchEvent, List.Perm (sortBySeq l) l := by
  intro l
  induction l with
  | nil => exact List.Perm.refl _
  | cons x xs ih =>
    exact (insertBySeq_perm x (sortBySeq xs)).trans (ih.cons x)

theorem insertBySeq_sorted {e : MatchEvent} :
    ∀ {l : List MatchEvent}, (l.Pairwise fun a b => a.seq ≤ b.seq) →
      (insertBySeq e l).Pairwise fun a b => a.seq ≤ b.seq := by
  intro l
  induction l with
  | nil => intro _; simp [insertBySeq]
  | cons x xs ih =>
    intro h
    rcases List.pairwise_cons.mp h with ⟨hx, hxs⟩
    by_cases hlt : x.seq < e.seq
    · simp only [insertBySeq, hlt, if_true]
      refine List.pairwise_cons.mpr ⟨?_, ih hxs⟩
      intro y hy
      rcases List.mem_cons.mp ((insertBySeq_perm e xs).mem_iff.mp hy) with hy' | hy'
      · subst hy'; exact le_of_lt hlt
      · exact hx y hy'
    · simp only [insertBySeq, hlt, if_false]
      refine List.pairwise_cons.mpr ⟨?_, h⟩
      intro y hy
      have hex : e.seq ≤ x.seq := le_of_not_lt hlt
      rcases List.mem_cons.mp hy with hy' | hy'
      · subst hy'; exact hex
      · exact le_trans hex (hx y hy')

theorem sortBySeq_sorted :
    ∀ l : List MatchEvent, (sortBySeq l).Pairwise fun a b => a.seq ≤ b.seq := by
  intro l
  induction l with
  | nil => simp [sortBySeq]
  | cons x xs ih => exact insertBySeq_sorted ih

theorem pairwise_lt_of_le_nodup {l : List MatchEvent}
    (hle : l.Pairwise fun a b => a.seq ≤ b.seq)
    (hnd : (l.map MatchEvent.seq).Nodup) :
    StrictBySeq l := by
  have hne : l.Pairwise fun a b => a.seq ≠ b.seq := List.pairwise_map.mp hnd
  exact (hle.and hne).imp fun h => lt_of_le_of_ne h.1 h.2

theorem sortBySeq_length (l : List MatchEvent) :
    (sortBySeq l).length = l.length :=
  (sortBySeq_perm l).length_eq

theorem appendEvent_strict {s : MatchState} (e : MatchEvent)
    (h : StrictBySeq s.events) : StrictBySeq (s.appendEvent e).events := by
  unfold MatchState.appendEvent
  by_cases hd : (s.events.any fun x => x.seq == e.seq) = true
  · simp only [hd, if_true]; exact h
  · simp only [hd, if_false]
    apply pairwise_lt_of_le_nodup (sortBySeq_sorted _)
    have hperm := (sortBySeq_perm (s.events ++ [e])).map MatchEvent.seq
    refine hperm.nodup_iff.mpr ?_
    rw [List.map_append]
    refine List.Nodup.append ?_ (List.nodup_singleton _) ?_
    · exact List.pairwise_map.mpr (h.imp fun hlt => ne_of_lt hlt)
    · intro a ha hb
      rcases List.mem_map.mp ha with ⟨x, hx, rfl⟩
      have hane : x.seq ≠ e.seq := by
        intro hcontra
        exact hd (List.any_eq_true.mpr ⟨x, hx, beq_iff_eq.mpr hcontra⟩)
      exact hane (List.mem_singleton.mp hb)

theorem appendEvent_length {s : MatchState} {e : MatchEvent}
    (hd : ¬ (s.events.any fun x => x.seq == e.seq) = true) :
    (s.appendEvent e).events.length = s.events.length + 1 := by
  unfold MatchState.appendEvent
  rw [if_neg hd]
  dsimp only
  rw [sortBySeq_length, List.length_append, List.length_singleton]

/-- Invariant of the `useMatchStream` handler state. -/
def StreamInv (s : StreamState) : Prop :=
  StrictBySeq s.events ∧ ∀ x ∈ s.events, x.seq ≤ s.lastSeq

theorem streamOnMessage_inv {s : StreamState} (e : MatchEvent)
    (h : StreamInv s) : StreamInv (streamOnMessage s e) := by
  obtain ⟨h1, h2⟩ := h
  unfold streamOnMessage
  by_cases hle : e.seq ≤ s.lastSeq
  · simp only [hle, if_true]; exact ⟨h1, h2⟩
  · simp only [hle, if_false]
    push_neg at hle
    constructor
    · refine List.pairwise_append.mpr ⟨h1, List.pairwise_singleton _ _, ?_⟩
      intro x hx y hy
      rw [List.mem_singleton] at hy
      subst hy
      exact lt_of_le_of_lt (h2 x hx) hle
    · intro x hx
      rcases List.mem_append.mp hx with hx' | hx'
      · exact le_of_lt (lt_of_le_of_lt (h2 x hx') hle)
      · rw [List.mem_singleton] at hx'; subst hx'; exact le_refl _

theorem runStream_inv (afterSeq : Int) (msgs : List MatchEvent) :
    StreamInv (runStream afterSeq msgs) := by
  have hgen : ∀ (l : List MatchEvent) (s : StreamState), StreamInv s →
      StreamInv (l.foldl streamOnMessage s) := by
    intro l
    induction l with
    | nil => intro s hs; exact hs
    | cons e es ih => intro s hs; exact ih _ (streamOnMessage_inv e hs)
  refine hgen msgs _ ⟨List.Pairwise.nil, ?_⟩
  intro x hx
  exact absurd hx (List.not_mem_nil x)

/-! ## Lemmas about match status derivation -/

theorem statusScanBack_eq (r : List MatchEvent) :
    statusScanBack r = statusSpec r.reverse := by
  induction r with
  | nil => rfl
  | cons e rest ih =>
    rcases e with ⟨id, seq, ts, mid, body⟩
    cases body <;>
      simp [statusScanBack, statusSpec, isTerminal, List.reverse_cons,
        List.filter_append, List.getLast?_concat, ih]

/-- The status component of one `deriveMatchView` loop iteration. -/
def statusFoldStep (st : ViewStatus) (e : MatchEvent) : ViewStatus :=
  match e.body with
  | .match_completed _ _ => .completed
  | .match_failed _ => .failed
  | _ => st

/-- The view status named by a terminal event. -/
def termViewStatus (e : MatchEvent) : ViewStatus :=
  match e.body with
  | .match_failed _ => .failed
  | _ => .completed

theorem viewStep_status (ap : Canon → List JsonPatchOp → Option Canon)
    (acc : ViewAcc) (e : MatchEvent) :
    (viewStep ap acc e).status = statusFoldStep acc.status e := by
  rcases e with ⟨id, seq, ts, mid, body⟩
  cases body <;> rfl

theorem foldl_viewStep_status (ap : Canon → List JsonPatchOp → Option Canon) :
    ∀ (l : List MatchEvent) (acc : ViewAcc),
      (l.foldl (viewStep ap) acc).status = l.foldl statusFoldStep acc.status := by
  intro l
  induction l with
  | nil => intro acc; rfl
  | cons e es ih =>
    intro acc
    rw [List.foldl_cons, List.foldl_cons, ih, viewStep_status]

theorem foldl_statusFoldStep :
    ∀ (l : List MatchEvent) (st : ViewStatus),
      l.foldl statusFoldStep st
        = ((l.filter isTerminal).getLast?.map termViewStatus).getD st := by
  intro l
  induction l with
  | nil => intro st; rfl
  | cons e es ih =>
    intro st
    rw [List.foldl_cons, ih]
    by_cases ht : isTerminal e = true
    · have hstep : statusFoldStep st e = termViewStatus e := by
        rcases e with ⟨id, seq, ts, mid, body⟩
        cases body <;> simp_all [isTerminal, statusFoldStep, termViewStatus]
      have hf : List.filter isTerminal (e :: es) = e :: List.filter isTerminal es := by
        simp [List.filter_cons, ht]
      rw [hstep, hf]
      cases hfe : es.filter isTerminal with
      | nil => simp [hfe]
      | cons y ys =>
        rw [List.getLast?_cons_cons]
        cases hgl : (y :: ys).getLast? with
        | none => simp at hgl
        | some z => simp [List.getLast?_cons_cons, hgl]
    · have hstep : statusFoldStep st e = st := by
        rcases e with ⟨id, seq, ts, mid, body⟩
        cases body <;> simp_all [isTerminal, statusFoldStep]
      have hf : List.filter isTerminal (e :: es) = List.filter isTerminal es := by
        simp [List.filter_cons, ht]
      rw [hstep, hf]

/-! ## Lemmas about slices and the derived view -/

theorem take_int_min (l : List MatchEvent) (c : Int) :
    l.take (max 0 (min c (l.length : Int))).toNat = l.take c.toNat := by
  have hn : (max 0 (min c (l.length : Int))).toNat = min c.toNat l.length := by
    omega
  rw [hn, ← List.take_take, List.take_length]

theorem mvSlice_eq_take (events : List MatchEvent) (cursor : Int) :
    mvSlice events cursor = events.take cursor.toNat := by
  unfold mvSlice
  exact take_int_min events cursor

theorem selectVisibleEvents_eq_mvSlice {s : MatchState}
    (h : -1 ≤ s.currentIndex) :
    selectVisibleEvents s = mvSlice s.events (s.currentIndex + 1) := by
  unfold selectVisibleEvents jsSliceTo
  have h0 : ¬ (s.currentIndex + 1 < 0) := by omega
  simp only [h0, if_false]
  rw [mvSlice_eq_take]
  have hn : (min (s.currentIndex + 1) (s.events.length : Int)).toNat
      = (max 0 (min (s.currentIndex + 1) (s.events.length : Int))).toNat := by
    omega
  rw [hn, take_int_min]

theorem deriveMatchView_congr_slice (ap : Canon → List JsonPatchOp → Option Canon)
    {events1 events2 : List MatchEvent} {c1 c2 : Int}
    (h : mvSlice events1 c1 = mvSlice events2 c2) :
    deriveMatchView ap events1 c1 = deriveMatchView ap events2 c2 := by
  unfold deriveMatchView
  rw [h]

/-! ## Lemmas about the store invariant -/

theorem storeInv_initialState : StoreInv initialState := by
  refine ⟨le_refl _, ?_, ?_⟩ <;> simp [initialState, StoreInv]

theorem storeStep_inv {s : MatchState} (a : MatchAction) (h : StoreInv s) :
    StoreInv (storeStep s a) := by
  obtain ⟨h1, h2, h3⟩ := h
  cases a with
  | setMatchId id => exact ⟨h1, h2, h3⟩
  | setMatchDetail d => exact ⟨h1, h2, h3⟩
  | setLoading b => exact ⟨h1, h2, h3⟩
  | setError err => exact ⟨h1, h2, h3⟩
  | setConnected b => exact ⟨h1, h2, h3⟩
  | play => exact ⟨h1, h2, h3⟩
  | pause => exact ⟨h1, h2, h3⟩
  | setSpeed sp => exact ⟨h1, h2, h3⟩
  | reset => exact storeInv_initialState
  | goLive =>
    show StoreInv s.goLive
    unfold StoreInv MatchState.goLive
    dsimp only
    exact ⟨by omega, le_refl _, by simp⟩
  | setEvents l =>
    show StoreInv (s.setEvents l)
    unfold StoreInv MatchState.setEvents
    dsimp only
    exact ⟨by omega, le_refl _, by simp⟩
  | seekTo i =>
    show StoreInv (s.seekTo i)
    unfold StoreInv MatchState.seekTo
    dsimp only
    refine ⟨by omega, by omega, ?_⟩
    simp only [decide_eq_true_eq]
  | stepForward =>
    show StoreInv s.stepForward
    unfold MatchState.stepForward
    by_cases hc : s.currentIndex < (s.events.length : Int) - 1
    · rw [if_pos hc]
      unfold StoreInv
      dsimp only
      refine ⟨by omega, by omega, ?_⟩
      simp only [decide_eq_true_eq]
    · rw [if_neg hc]
      exact ⟨h1, h2, h3⟩
  | stepBackward =>
    show StoreInv s.stepBackward
    unfold MatchState.stepBackward
    by_cases hc : s.currentIndex > 0
    · rw [if_pos hc]
      unfold StoreInv
      dsimp only
      refine ⟨by omega, by omega, ?_⟩
      simp only [Bool.false_eq_true, false_iff]
      omega
    · rw [if_neg hc]
      exact ⟨h1, h2, h3⟩
  | appendEvent e =>
    show StoreInv (s.appendEvent e)
    by_cases hd : (s.events.any fun x => x.seq == e.seq) = true
    · unfold MatchState.appendEvent
      rw [if_pos hd]
      exact ⟨h1, h2, h3⟩
    · have hlen : (sortBySeq (s.events ++ [e])).length = s.events.length + 1 := by
        rw [sortBySeq_length, List.length_append, List.length_singleton]
      unfold MatchState.appendEvent
      rw [if_neg hd]
      unfold StoreInv
      dsimp only
      rw [hlen]
      by_cases hl : s.isLive = true
      · rw [if_pos hl]
        refine ⟨by omega, by omega, ?_⟩
        simp only [decide_eq_true_eq]
      · rw [if_neg hl]
        have hne : s.currentIndex ≠ (s.events.length : Int) - 1 := fun hcontra =>
          hl (h3.mpr hcontra)
        refine ⟨h1, by omega, ?_⟩
        simp only [decide_eq_true_eq]

theorem selectMatchStatus_eq (s : MatchState) :
    selectMatchStatus s = statusSpec (selectVisibleEvents s) := by
  unfold selectMatchStatus
  rw [statusScanBack_eq, List.reverse_reverse]

theorem deriveMatchView_status_eq (ap : Canon → List JsonPatchOp → Option Canon)
    (events : List MatchEvent) (cursor : Int) :
    (mvSlice events cursor = [] →
      (deriveMatchView ap events cursor).status = ViewStatus.idle)
    ∧ (mvSlice events cursor ≠ [] →
      (deriveMatchView ap events cursor).status
        = (statusSpec (mvSlice events cursor)).toViewStatus) := by
  constructor
  · intro hsl
    unfold deriveMatchView
    dsimp only
    rw [hsl]
    rfl
  · intro hne
    unfold deriveMatchView
    dsimp only
    cases hsl : mvSlice events cursor with
    | nil => exact absurd hsl hne
    | cons y ys =>
      rw [foldl_viewStep_status, foldl_statusFoldStep]
      cases hgl : (List.filter isTerminal (y :: ys)).getLast? with
      | none => simp [hgl, statusSpec, MatchEventStatus.toViewStatus]
      | some z =>
        rcases z with ⟨id, sq, ts, mid, body⟩
        cases body <;>
          simp [hgl, statusSpec, MatchEventStatus.toViewStatus, termViewStatus]

theorem deriveMatchView_teams_nil (ap : Canon → List JsonPatchOp → Option Canon)
    {events : List MatchEvent} {cursor : Int}
    (hsl : mvSlice events cursor = []) :
    (deriveMatchView ap events cursor).teams = TeamsRec.init := by
  unfold deriveMatchView
  dsimp only
  rw [hsl]
  rfl

theorem runStore_foldl_inv :
    ∀ (acts : List MatchAction) (s : MatchState), StoreInv s →
      StoreInv (acts.foldl storeStep s) := by
  intro acts
  induction acts with
  | nil => intro s hs; exact hs
  | cons a rest ih => intro s hs; exact ih _ (storeStep_inv a hs)

/-! ## Claim theorems -/

/-- Claim C1: `deriveTeamCanon` returns null exactly when the list has no
`canon_initialized` event for the team; otherwise it returns the first such
event's canon with the patch of every `canon_patch_applied` event carrying
that team id applied in list order (failed applications skipped, derivation
continuing from the previous canon), so the live canon is derivable from
the events alone. -/
theorem deriveTeamCanon_replays_patches
    (ap : Canon → List JsonPatchOp → Option Canon)
    (events : List MatchEvent) (team : TeamId) :
    (deriveTeamCanon ap events team = none ↔
      ∀ e ∈ events, e.isInitFor team = false)
    ∧ (∀ initEvent c0,
        events.find? (MatchEvent.isInitFor team) = some initEvent →
        initEvent.initCanon? = some c0 →
        deriveTeamCanon ap events team
          = some ((events.filterMap (MatchEvent.patchFor? team)).foldl
              (applyOrKeep ap) c0)) := by
  have key : ∀ initEvent,
      events.find? (MatchEvent.isInitFor team) = some initEvent →
      ∀ c0, initEvent.initCanon? = some c0 →
      deriveTeamCanon ap events team
        = some ((events.filterMap (MatchEvent.patchFor? team)).foldl
            (applyOrKeep ap) c0) := by
    intro initEvent hfind c0 hc0
    unfold deriveTeamCanon
    rw [hfind]
    dsimp only
    rw [hc0]
    dsimp only
    rw [foldl_patchStep_eq]
  refine ⟨⟨?_, ?_⟩, fun initEvent c0 hf hc => key initEvent hf c0 hc⟩
  · intro hnone
    cases hfind : events.find? (MatchEvent.isInitFor team) with
    | none =>
      intro e he
      simpa using List.find?_eq_none.mp hfind e he
    | some initEvent =>
      obtain ⟨c0, hc0⟩ := isInitFor_initCanon (List.find?_some hfind)
      rw [key initEvent hfind c0 hc0] at hnone
      exact absurd hnone (by simp)
  · intro hall
    unfold deriveTeamCanon
    rw [List.find?_eq_none.mpr fun e he => by simp [hall e he]]

/-- Witness for C1 at a concrete log of one init and one patch event. -/
theorem deriveTeamCanon_replays_patches_witness :
    deriveTeamCanon apKeep [sampleInitA, samplePatchA2] TeamId.A
      = some ((([sampleInitA, samplePatchA2]).filterMap
          (MatchEvent.patchFor? TeamId.A)).foldl (applyOrKeep apKeep) sampleCanon) :=
  (deriveTeamCanon_replays_patches apKeep [sampleInitA, samplePatchA2] TeamId.A).2
    sampleInitA sampleCanon rfl rfl

/-- Claim C2: from the initial store state, any sequence of `appendEvent`
calls keeps the events list strictly increasing in `seq`; appending an
event whose `seq` is already present leaves the state unchanged; and the
events accumulated by the `useMatchStream` message handler are likewise
strictly increasing. -/
theorem appendEvent_strictly_increasing
    (evts : List MatchEvent) (s : MatchState) (e : MatchEvent)
    (afterSeq : Int) (msgs : List MatchEvent) :
    StrictBySeq ((evts.foldl MatchState.appendEvent initialState).events)
    ∧ ((∃ x ∈ s.events, x.seq = e.seq) → s.appendEvent e = s)
    ∧ StrictBySeq (runStream afterSeq msgs).events := by
  refine ⟨?_, ?_, (runStream_inv afterSeq msgs).1⟩
  · have hgen : ∀ (l : List MatchEvent) (st : MatchState), StrictBySeq st.events →
        StrictBySeq ((l.foldl MatchState.appendEvent st).events) := by
      intro l
      induction l with
      | nil => intro st hs; exact hs
      | cons x xs ih => intro st hs; exact ih _ (appendEvent_strict x hs)
    exact hgen evts initialState List.Pairwise.nil
  · rintro ⟨x, hx, hseq⟩
    have hp : (s.events.any fun y => y.seq == e.seq) = true := by
      rw [List.any_eq_true]
      exact ⟨x, hx, by simpa using hseq⟩
    unfold MatchState.appendEvent
    rw [if_pos hp]

/-- Witness for C2: appending a duplicate `seq` is a no-op on a concrete
one-event store state. -/
theorem appendEvent_strictly_increasing_witness :
    (initialState.appendEvent sampleInitA).appendEvent samplePatchA
      = initialState.appendEvent sampleInitA := by
  have hmem : sampleInitA ∈ (initialState.appendEvent sampleInitA).events := by
    have h : (initialState.appendEvent sampleInitA).events = [sampleInitA] := rfl
    rw [h]
    exact List.mem_singleton.mpr rfl
  exact (appendEvent_strictly_increasing [] (initialState.appendEvent sampleInitA)
    samplePatchA 0 []).2.1 ⟨sampleInitA, hmem, rfl⟩

/-- Claim C3: the derived match view depends only on the event-log prefix
up to the cursor — two event lists agreeing on their first `cursor`
elements yield identical `deriveMatchView` results in every field. -/
theorem deriveMatchView_prefix_independent
    (ap : Canon → List JsonPatchOp → Option Canon)
    (events1 events2 : List MatchEvent) (cursor : Int)
    (h : events1.take cursor.toNat = events2.take cursor.toNat) :
    deriveMatchView ap events1 cursor = deriveMatchView ap events2 cursor :=
  deriveMatchView_congr_slice ap (by rw [mvSlice_eq_take, mvSlice_eq_take, h])

/-- Witness for C3: an event beyond the cursor does not change the view. -/
theorem deriveMatchView_prefix_independent_witness :
    deriveMatchView apKeep [sampleInitA] 1
      = deriveMatchView apKeep [sampleInitA, samplePatchA2] 1 :=
  deriveMatchView_prefix_independent apKeep [sampleInitA]
    [sampleInitA, samplePatchA2] 1 rfl

/-- Claim C5 (amended): `selectMatchStatus` always returns one of
running/completed/failed, namely the status named by the most recent
terminal event of the visible events (running with no terminal event);
`deriveMatchView`'s status field follows the same rule on its slice except
that it is `idle` — not `running` — when the slice is empty; consequently
the two derivations agree on every state whose visible slice is nonempty. -/
theorem matchStatus_most_recent_terminal :
    (∀ s : MatchState, selectMatchStatus s = statusSpec (selectVisibleEvents s))
    ∧ (∀ (ap : Canon → List JsonPatchOp → Option Canon)
        (events : List MatchEvent) (cursor : Int),
        mvSlice events cursor ≠ [] →
        (deriveMatchView ap events cursor).status
          = (statusSpec (mvSlice events cursor)).toViewStatus)
    ∧ (∀ (ap : Canon → List JsonPatchOp → Option Canon) (s : MatchState),
        -1 ≤ s.currentIndex → selectVisibleEvents s ≠ [] →
        (deriveMatchView ap s.events (s.currentIndex + 1)).status
          = (selectMatchStatus s).toViewStatus) := by
  refine ⟨selectMatchStatus_eq, fun ap events cursor hne =>
    (deriveMatchView_status_eq ap events cursor).2 hne, ?_⟩
  intro ap s hci hne
  have hv := selectVisibleEvents_eq_mvSlice hci
  rw [(deriveMatchView_status_eq ap s.events (s.currentIndex + 1)).2
    (by rw [← hv]; exact hne)]
  rw [← hv, selectMatchStatus_eq s]

/-- Counterexample to C5 as stated: on an empty visible slice
`deriveMatchView` reports `idle`, which is none of running/completed/failed
and disagrees with `selectMatchStatus`, which reports `running` there. -/
theorem matchStatus_counterexample :
    (deriveMatchView apKeep [] 0).status = ViewStatus.idle
    ∧ (deriveMatchView apKeep [] 0).status ≠ ViewStatus.running
    ∧ (deriveMatchView apKeep [] 0).status ≠ ViewStatus.completed
    ∧ (deriveMatchView apKeep [] 0).status ≠ ViewStatus.failed
    ∧ selectMatchStatus initialState = MatchEventStatus.running
    ∧ MatchEventStatus.running.toViewStatus ≠ ViewStatus.idle := by
  refine ⟨rfl, ?_, ?_, ?_, rfl, ?_⟩ <;> decide

/-- Witness for C5 (amended) at a one-event store state. -/
theorem matchStatus_most_recent_terminal_witness :
    (deriveMatchView apKeep (initialState.appendEvent sampleInitA).events
        ((initialState.appendEvent sampleInitA).currentIndex + 1)).status
      = (selectMatchStatus (initialState.appendEvent sampleInitA)).toViewStatus := by
  have h1 : (-1 : Int) ≤ (initialState.appendEvent sampleInitA).currentIndex := by
    have h : (initialState.appendEvent sampleInitA).currentIndex = 0 := rfl
    rw [h]
    norm_num
  have h2 : selectVisibleEvents (initialState.appendEvent sampleInitA) ≠ [] := by
    have h : selectVisibleEvents (initialState.appendEvent sampleInitA)
        = [sampleInitA] := rfl
    rw [h]
    simp
  exact matchStatus_most_recent_terminal.2.2 apKeep
    (initialState.appendEvent sampleInitA) h1 h2

/-- Claim C6: in the reconnecting SSE client, a new connection's `after`
parameter equals the seq of the most recently delivered event, and equals
the caller-supplied initial seq while no event has been delivered. -/
theorem reconnect_after_param (initialSeq : Int) (acts : List SSEAction) :
    ((runReconn initialSeq acts).delivered = [] →
      connectAfterParam (runReconn initialSeq acts) = initialSeq)
    ∧ (∀ e, (runReconn initialSeq acts).delivered.getLast? = some e →
        connectAfterParam (runReconn initialSeq acts) = e.seq) := by
  have hgen : ∀ (l : List SSEAction) (st : ReconnState),
      ((st.delivered = [] → st.currentSeq = initialSeq)
        ∧ ∀ e, st.delivered.getLast? = some e → st.currentSeq = e.seq) →
      (((l.foldl reconnStep st).delivered = [] →
          (l.foldl reconnStep st).currentSeq = initialSeq)
        ∧ ∀ e, (l.foldl reconnStep st).delivered.getLast? = some e →
            (l.foldl reconnStep st).currentSeq = e.seq) := by
    intro l
    induction l with
    | nil => intro st hs; exact hs
    | cons a rest ih =>
      intro st hs
      refine ih _ ?_
      cases a with
      | onError => exact hs
      | onEvent e =>
        constructor
        · intro hdel
          simp [reconnStep] at hdel
        · intro x hx
          rw [reconnStep] at hx ⊢
          dsimp only at hx ⊢
          rw [List.getLast?_concat] at hx
          injection hx with hex
          rw [← hex]
  refine hgen acts _ ⟨fun _ => rfl, fun e h => ?_⟩
  simp [reconnInit] at h

/-- Witness for C6 after one delivery and one error. -/
theorem reconnect_after_param_witness :
    connectAfterParam
        (runReconn 0 [SSEAction.onEvent sampleInitA, SSEAction.onError])
      = (1 : Int) :=
  (reconnect_after_param 0 [SSEAction.onEvent sampleInitA, SSEAction.onError]).2
    sampleInitA rfl

/-- Claim C8: every store state reachable from the initial state by any
sequence of store actions satisfies
-1 ≤ currentIndex ≤ events.length - 1, with isLive true exactly when
currentIndex equals events.length - 1. -/
theorem matchStore_reachable_invariant (acts : List MatchAction) :
    StoreInv (runStore acts) :=
  runStore_foldl_inv acts initialState storeInv_initialState

/-- Claim C9 (amended): with no team patch events `deriveTeamCanonBefore`
agrees with `deriveTeamCanon`; otherwise it equals `deriveTeamCanon` on the
list with every `canon_patch_applied` event of that team whose seq equals
the last such patch event's seq removed. -/
theorem deriveTeamCanonBefore_drops_last_patch
    (ap : Canon → List JsonPatchOp → Option Canon)
    (events : List MatchEvent) (team : TeamId) :
    (events.filter (MatchEvent.isPatchFor team) = [] →
      deriveTeamCanonBefore ap events team = deriveTeamCanon ap events team)
    ∧ (∀ lastPatch,
        (events.filter (MatchEvent.isPatchFor team)).getLast? = some lastPatch →
        deriveTeamCanonBefore ap events team
          = deriveTeamCanon ap
              (events.filter fun e => !(e.isPatchFor team && e.seq == lastPatch.seq))
              team) := by
  constructor
  · intro hnil
    unfold deriveTeamCanonBefore
    dsimp only
    rw [hnil, List.getLast?_nil]
    cases hfind : events.find? (MatchEvent.isInitFor team) with
    | none =>
      unfold deriveTeamCanon
      rw [hfind]
    | some initEvent =>
      dsimp only
      cases hc0 : initEvent.initCanon? with
      | none =>
        unfold deriveTeamCanon
        rw [hfind]
        dsimp only
        rw [hc0]
      | some c0 =>
        unfold deriveTeamCanon
        rw [hfind]
        dsimp only
        rw [hc0]
        dsimp only
        rw [foldl_patchStep_eq]
        have hfm : events.filterMap (MatchEvent.patchFor? team) = [] := by
          rw [List.filterMap_eq_nil_iff]
          intro a ha
          exact isPatchFor_false_patchFor
            (by simpa using List.filter_eq_nil_iff.mp hnil a ha)
        rw [hfm]
        rfl
  · intro lastPatch hlast
    unfold deriveTeamCanonBefore
    dsimp only
    rw [hlast]

/-- Counterexample to C9 as stated: with an unrelated event (here the
initialization) sharing the last patch's seq, removing every event with
that seq — as the claim says — drops the initialization and derives null,
while `deriveTeamCanonBefore` returns the initial canon. -/
theorem deriveTeamCanonBefore_counterexample :
    ¬ (deriveTeamCanonBefore apKeep [sampleInitA, samplePatchA] TeamId.A
        = deriveTeamCanon apKeep
            (([sampleInitA, samplePatchA]).filter fun e => !(e.seq == (1 : Int)))
            TeamId.A) := by
  intro h
  have h1 : deriveTeamCanonBefore apKeep [sampleInitA, samplePatchA] TeamId.A
      = some sampleCanon := rfl
  have h2 : deriveTeamCanon apKeep
      (([sampleInitA, samplePatchA]).filter fun e => !(e.seq == (1 : Int)))
      TeamId.A = none := rfl
  rw [h1, h2] at h
  exact Option.noConfusion h

/-- Witness for C9 (amended) at the same concrete log. -/
theorem deriveTeamCanonBefore_drops_last_patch_witness :
    deriveTeamCanonBefore apKeep [sampleInitA, samplePatchA] TeamId.A
      = deriveTeamCanon apKeep
          (([sampleInitA, samplePatchA]).filter fun e =>
            !(e.isPatchFor TeamId.A && e.seq == samplePatchA.seq))
          TeamId.A :=
  (deriveTeamCanonBefore_drops_last_patch apKeep [sampleInitA, samplePatchA]
    TeamId.A).2 samplePatchA rfl

/-- Claim C10: `deriveMatchView` is total on every integer cursor and
clamps it to [0, events.length]; a cursor of 0 or less yields status idle
with both team views empty. -/
theorem deriveMatchView_clamps_cursor
    (ap : Canon → List JsonPatchOp → Option Canon)
    (events : List MatchEvent) (cursor : Int) :
    deriveMatchView ap events cursor
      = deriveMatchView ap events (max 0 (min cursor (events.length : Int)))
    ∧ (cursor ≤ 0 →
        (deriveMatchView ap events cursor).status = ViewStatus.idle
        ∧ (deriveMatchView ap events cursor).teams = TeamsRec.init) := by
  constructor
  · apply deriveMatchView_congr_slice
    unfold mvSlice
    congr 1
    omega
  · intro hle
    have hsl : mvSlice events cursor = [] := by
      rw [mvSlice_eq_take]
      have h0 : cursor.toNat = 0 := by omega
      rw [h0]
      rfl
    exact ⟨(deriveMatchView_status_eq ap events cursor).1 hsl,
      deriveMatchView_teams_nil ap hsl⟩

/-- Witness for C10 at a negative cursor over a concrete log. -/
theorem deriveMatchView_clamps_cursor_witness :
    (deriveMatchView apKeep [sampleInitA] (-3)).status = ViewStatus.idle
    ∧ (deriveMatchView apKeep [sampleInitA] (-3)).teams = TeamsRec.init :=
  (deriveMatchView_clamps_cursor apKeep [sampleInitA] (-3)).2 (by norm_num)

end WBA
